import Mathlib

/-!
Verification of the byteorder-pack encode/decode core.

Shallow embedding of `src/pack.rs` and `src/unpack.rs`. A sink is modelled as
the in-memory byte buffer used throughout the crate (a `Cursor<Vec<u8>>`): a
`pack_to` call is modelled by the list of bytes it appends, which always
succeeds, matching an in-memory sink. A source is modelled as the list of
bytes not yet consumed; `unpack_from` returns `none` exactly on a short read.
Bytes are `Nat` values below 256. The fixed-width read/write primitives of the
external `byteorder` crate (`write_u16`, `read_u16`, ...) are modelled by their
documented semantics: big-endian puts the most significant byte first,
little-endian the least significant byte first, and signed values travel as
their two's-complement bit pattern. IEEE floats are represented by their bit
patterns (`f32` as a `Nat` below `2 ^ 32`, `f64` below `2 ^ 64`), because
`write_f32`/`read_f32` transmute to `u32`/`u64` and bit-pattern equality is
the observable notion of round-trip for them.
-/

namespace ByteorderPack

/-- The byte-order selector threaded through every call: the two `ByteOrder`
implementors `BigEndian` and `LittleEndian` of the `byteorder` crate. -/
inductive Bo where
  | big
  | little
deriving DecidableEq

/-- Little-endian decomposition of `v` into `w` bytes, least significant
byte first (the `to_le_bytes` layout used by `LittleEndian::write_uint`). -/
def natToBytesLE : Nat → Nat → List Nat
  | 0, _ => []
  | w + 1, v => v % 256 :: natToBytesLE w (v / 256)

/-- Big-endian decomposition of `v` into `w` bytes, most significant byte
first (the `to_be_bytes` layout used by `BigEndian::write_uint`). -/
def natToBytesBE : Nat → Nat → List Nat
  | 0, _ => []
  | w + 1, v => natToBytesBE w (v / 256) ++ [v % 256]

/-- Recompose a little-endian byte list into the value it denotes. -/
def bytesToNatLE : List Nat → Nat
  | [] => 0
  | b :: bs => b + 256 * bytesToNatLE bs

/-- Recompose a big-endian byte list into the value it denotes. -/
def bytesToNatBE : List Nat → Nat
  | [] => 0
  | b :: bs => b * 256 ^ bs.length + bytesToNatBE bs

/-- Bytes written for an unsigned scalar of byte width `w` under order `o`
(the `byteorder` write primitive this crate delegates to). -/
def writeUInt (o : Bo) (w : Nat) (v : Nat) : List Nat :=
  match o with
  | .big => natToBytesBE w v
  | .little => natToBytesLE w v

/-- Consume exactly `n` bytes from the source, failing on a short read. -/
def readBytes (n : Nat) (src : List Nat) : Option (List Nat × List Nat) :=
  if n ≤ src.length then some (src.take n, src.drop n) else none

/-- Read an unsigned scalar of byte width `w` under order `o` (the
`byteorder` read primitive this crate delegates to). -/
def readUInt (o : Bo) (w : Nat) (src : List Nat) : Option (Nat × List Nat) :=
  match readBytes w src with
  | none => none
  | some (bs, rest) =>
    match o with
    | .big => some (bytesToNatBE bs, rest)
    | .little => some (bytesToNatLE bs, rest)

/-- Two's-complement bit pattern of a signed value in `w` bytes. -/
def toTwos (w : Nat) (v : Int) : Nat := (v % ((2 : Int) ^ (8 * w))).toNat

/-- Signed value denoted by a `w`-byte two's-complement bit pattern. -/
def fromTwos (w : Nat) (n : Nat) : Int :=
  if n < 2 ^ (8 * w - 1) then (n : Int) else (n : Int) - 2 ^ (8 * w)

/-- `impl PackTo for u8`: `dst.write_u8(*self)`; the order parameter is
unused, a `u8` value is its single-byte pattern. -/
def packTo_u8 (_ : Bo) (v : Nat) : List Nat := [v % 256]

/-- `impl PackTo for i8`: `dst.write_i8(*self)`. -/
def packTo_i8 (_ : Bo) (v : Int) : List Nat := [toTwos 1 v]

/-- `impl PackTo for u16` via `impl_primitive!`: `src.write_u16::<E>(*self)`. -/
def packTo_u16 (o : Bo) (v : Nat) : List Nat := writeUInt o 2 v

/-- `impl PackTo for u32` via `impl_primitive!`. -/
def packTo_u32 (o : Bo) (v : Nat) : List Nat := writeUInt o 4 v

/-- `impl PackTo for u64` via `impl_primitive!`. -/
def packTo_u64 (o : Bo) (v : Nat) : List Nat := writeUInt o 8 v

/-- `impl PackTo for u128` via `impl_primitive!`. -/
def packTo_u128 (o : Bo) (v : Nat) : List Nat := writeUInt o 16 v

/-- `impl PackTo for i16` via `impl_primitive!`: the two's-complement
pattern written as a `u16`. -/
def packTo_i16 (o : Bo) (v : Int) : List Nat := writeUInt o 2 (toTwos 2 v)

/-- `impl PackTo for i32` via `impl_primitive!`. -/
def packTo_i32 (o : Bo) (v : Int) : List Nat := writeUInt o 4 (toTwos 4 v)

/-- `impl PackTo for i64` via `impl_primitive!`. -/
def packTo_i64 (o : Bo) (v : Int) : List Nat := writeUInt o 8 (toTwos 8 v)

/-- `impl PackTo for i128` via `impl_primitive!`. -/
def packTo_i128 (o : Bo) (v : Int) : List Nat := writeUInt o 16 (toTwos 16 v)

/-- `impl PackTo for f32` via `impl_primitive!`: `write_f32` writes the IEEE
bit pattern as a `u32`; the value is represented by that bit pattern. -/
def packTo_f32 (o : Bo) (bits : Nat) : List Nat := writeUInt o 4 bits

/-- `impl PackTo for f64` via `impl_primitive!`: the bit pattern as a `u64`. -/
def packTo_f64 (o : Bo) (bits : Nat) : List Nat := writeUInt o 8 bits

/-- `impl UnpackFrom for u8`: `src.read_u8()`. -/
def unpackFrom_u8 (_ : Bo) (src : List Nat) : Option (Nat × List Nat) :=
  match src with
  | [] => none
  | b :: rest => some (b, rest)

/-- `impl UnpackFrom for i8`: `src.read_i8()`. -/
def unpackFrom_i8 (_ : Bo) (src : List Nat) : Option (Int × List Nat) :=
  match src with
  | [] => none
  | b :: rest => some (fromTwos 1 b, rest)

/-- `impl UnpackFrom for u16` via `impl_primitive!`: `src.read_u16::<E>()`. -/
def unpackFrom_u16 (o : Bo) (src : List Nat) : Option (Nat × List Nat) :=
  readUInt o 2 src

/-- `impl UnpackFrom for u32` via `impl_primitive!`. -/
def unpackFrom_u32 (o : Bo) (src : List Nat) : Option (Nat × List Nat) :=
  readUInt o 4 src

/-- `impl UnpackFrom for u64` via `impl_primitive!`. -/
def unpackFrom_u64 (o : Bo) (src : List Nat) : Option (Nat × List Nat) :=
  readUInt o 8 src

/-- `impl UnpackFrom for u128` via `impl_primitive!`. -/
def unpackFrom_u128 (o : Bo) (src : List Nat) : Option (Nat × List Nat) :=
  readUInt o 16 src

/-- `impl UnpackFrom for i16` via `impl_primitive!`: a `u16` pattern
reinterpreted as two's complement. -/
def unpackFrom_i16 (o : Bo) (src : List Nat) : Option (Int × List Nat) :=
  match readUInt o 2 src with
  | none => none
  | some (n, rest) => some (fromTwos 2 n, rest)

/-- `impl UnpackFrom for i32` via `impl_primitive!`. -/
def unpackFrom_i32 (o : Bo) (src : List Nat) : Option (Int × List Nat) :=
  match readUInt o 4 src with
  | none => none
  | some (n, rest) => some (fromTwos 4 n, rest)

/-- `impl UnpackFrom for i64` via `impl_primitive!`. -/
def unpackFrom_i64 (o : Bo) (src : List Nat) : Option (Int × List Nat) :=
  match readUInt o 8 src with
  | none => none
  | some (n, rest) => some (fromTwos 8 n, rest)

/-- `impl UnpackFrom for i128` via `impl_primitive!`. -/
def unpackFrom_i128 (o : Bo) (src : List Nat) : Option (Int × List Nat) :=
  match readUInt o 16 src with
  | none => none
  | some (n, rest) => some (fromTwos 16 n, rest)

/-- `impl UnpackFrom for f32` via `impl_primitive!`: `read_f32` reads the
`u32` bit pattern; the value is represented by that bit pattern. -/
def unpackFrom_f32 (o : Bo) (src : List Nat) : Option (Nat × List Nat) :=
  readUInt o 4 src

/-- `impl UnpackFrom for f64` via `impl_primitive!`. -/
def unpackFrom_f64 (o : Bo) (src : List Nat) : Option (Nat × List Nat) :=
  readUInt o 8 src

/-- `impl PackTo for ()`: the body ignores the sink and returns `Ok(())`,
writing zero bytes. -/
def packTo_unit (_ : Bo) : List Nat := []

/-- Modelled from the spec: `unpack.rs` contains no `UnpackFrom` impl for the
unit type, so the decoder half of the zero-field composition is taken from
the spec sentence "Zero-field composition always succeeds, consuming zero
bytes, and produces the unit value." -/
def unpackFrom_unit (_ : Bo) (src : List Nat) : Option (Unit × List Nat) :=
  some ((), src)

/-- `impl PackTo for &T`: `(*self).pack_to::<E, _>(dst)` — pure delegation
to the referent's encoder `p`. -/
def packTo_ref {α : Type} (p : Bo → α → List Nat) (o : Bo) (v : α) : List Nat :=
  p o v

/-- The two-field instance of `impl_tuple!`: pack field 0 then field 1 into
the same sink, so the bytes written are the concatenation. -/
def packTo_pair {α β : Type} (pa : Bo → α → List Nat) (pb : Bo → β → List Nat)
    (o : Bo) (v : α × β) : List Nat :=
  pa o v.1 ++ pb o v.2

/-- The two-field instance of `impl_tuple!` on the decode side: decode field
0, then field 1 from what remains, failing if either fails. -/
def unpackFrom_pair {α β : Type} (ua : Bo → List Nat → Option (α × List Nat))
    (ub : Bo → List Nat → Option (β × List Nat))
    (o : Bo) (src : List Nat) : Option ((α × β) × List Nat) :=
  match ua o src with
  | none => none
  | some (a, src1) =>
    match ub o src1 with
    | none => none
    | some (b, src2) => some ((a, b), src2)

/-- The four-field instance of `impl_tuple!`: fields packed in declared
left-to-right order. -/
def packTo_tuple4 {α β γ δ : Type} (p1 : Bo → α → List Nat)
    (p2 : Bo → β → List Nat) (p3 : Bo → γ → List Nat) (p4 : Bo → δ → List Nat)
    (o : Bo) (v : α × β × γ × δ) : List Nat :=
  p1 o v.1 ++ p2 o v.2.1 ++ p3 o v.2.2.1 ++ p4 o v.2.2.2

/-- The four-field instance of `impl_tuple!` on the decode side. -/
def unpackFrom_tuple4 {α β γ δ : Type}
    (u1 : Bo → List Nat → Option (α × List Nat))
    (u2 : Bo → List Nat → Option (β × List Nat))
    (u3 : Bo → List Nat → Option (γ × List Nat))
    (u4 : Bo → List Nat → Option (δ × List Nat))
    (o : Bo) (src : List Nat) : Option ((α × β × γ × δ) × List Nat) :=
  match u1 o src with
  | none => none
  | some (a, src1) =>
    match u2 o src1 with
    | none => none
    | some (b, src2) =>
      match u3 o src2 with
      | none => none
      | some (c, src3) =>
        match u4 o src3 with
        | none => none
        | some (d, src4) => some ((a, b, c, d), src4)

/-- `PackTo::pack_multiple_to` default body: `for i in buf { i.pack_to()? }`
over an element encoder `p`; the bytes of each element in index order. -/
def packMultipleTo {α : Type} (p : Bo → α → List Nat) (o : Bo) :
    List α → List Nat
  | [] => []
  | x :: xs => p o x ++ packMultipleTo p o xs

/-- The `u8` specialization of `pack_multiple_to`: `dst.write_all(buf)`, a
single block write of the buffer's bytes. -/
def packMultipleTo_u8 (_ : Bo) (buf : List Nat) : List Nat := buf

/-- `UnpackFrom::unpack_multiple_into` default body:
`for i in dst { *i = Self::unpack_from(src)?; }` over an element decoder
`u`. Returns the state of the destination slice after the call together
with `some` of the remaining source on success, `none` on failure; a slot at
or after the first failing element keeps the value it held before the call. -/
def unpackMultipleInto {α : Type} (u : Bo → List Nat → Option (α × List Nat))
    (o : Bo) (src : List Nat) : List α → List α × Option (List Nat)
  | [] => ([], some src)
  | d :: ds =>
    match u o src with
    | none => (d :: ds, none)
    | some (v, src1) =>
      let r := unpackMultipleInto u o src1 ds
      (v :: r.1, r.2)

/-- The `u8` specialization of `unpack_multiple_into`: `src.read_exact(dst)`,
one exact block read of `dst.length` bytes. On a short read it fails without
the per-element fill (the slice reader rejects the request up front). -/
def unpackMultipleInto_u8 (_ : Bo) (src : List Nat) (dst : List Nat) :
    List Nat × Option (List Nat) :=
  match readBytes dst.length src with
  | none => (dst, none)
  | some (taken, rest) => (taken, some rest)

/-- Decode `n` values in sequence with the element decoder `u`: the
all-or-nothing sequential reading that composite decoding is measured
against. -/
def decodeSeq {α : Type} (u : Bo → List Nat → Option (α × List Nat)) (o : Bo) :
    Nat → List Nat → Option (List α × List Nat)
  | 0, src => some ([], src)
  | n + 1, src =>
    match u o src with
    | none => none
    | some (v, src1) =>
      match decodeSeq u o n src1 with
      | none => none
      | some (vs, rest) => some (v :: vs, rest)

/-- `impl UnpackFrom for [T; N]`: build a local buffer of `N` default values,
run `unpack_multiple_into` on it, and return it only when that succeeds. -/
def unpackFrom_array {α : Type} (dflt : α)
    (u : Bo → List Nat → Option (α × List Nat)) (o : Bo) (n : Nat)
    (src : List Nat) : Option (List α × List Nat) :=
  let r := unpackMultipleInto u o src (List.replicate n dflt)
  match r.2 with
  | none => none
  | some rest => some (r.1, rest)

/-- `impl PackTo for &[T]`: `T::pack_multiple_to(self, dst)` with the default
per-element loop. -/
def packTo_slice {α : Type} (p : Bo → α → List Nat) (o : Bo) (l : List α) :
    List Nat :=
  packMultipleTo p o l

theorem length_natToBytesLE (w v : Nat) : (natToBytesLE w v).length = w := by
  induction w generalizing v with
  | zero => rfl
  | succ w ih => simp [natToBytesLE, ih]

theorem length_natToBytesBE (w v : Nat) : (natToBytesBE w v).length = w := by
  induction w generalizing v with
  | zero => rfl
  | succ w ih => simp [natToBytesBE, ih]

theorem natToBytesBE_eq_reverse (w v : Nat) :
    natToBytesBE w v = (natToBytesLE w v).reverse := by
  induction w generalizing v with
  | zero => rfl
  | succ w ih => simp [natToBytesBE, natToBytesLE, ih]

theorem bytesToNatLE_natToBytesLE (w v : Nat) :
    bytesToNatLE (natToBytesLE w v) = v % 256 ^ w := by
  induction w generalizing v with
  | zero => simp [natToBytesLE, bytesToNatLE, pow_zero, Nat.mod_one]
  | succ w ih =>
    have hp : (256 : Nat) ^ (w + 1) = 256 * 256 ^ w := by ring
    rw [natToBytesLE, bytesToNatLE, ih, hp, Nat.mod_mul]

theorem bytesToNatLE_append (xs : List Nat) (b : Nat) :
    bytesToNatLE (xs ++ [b]) = bytesToNatLE xs + b * 256 ^ xs.length := by
  induction xs with
  | nil => simp [bytesToNatLE]
  | cons x xs ih =>
    simp only [List.cons_append, bytesToNatLE, List.length_cons]
    have ih2 : bytesToNatLE (xs.append [b]) = bytesToNatLE xs + b * 256 ^ xs.length := ih
    rw [ih2]
    ring

theorem bytesToNatBE_eq (bs : List Nat) :
    bytesToNatBE bs = bytesToNatLE bs.reverse := by
  induction bs with
  | nil => rfl
  | cons b bs ih =>
    simp only [bytesToNatBE, ih, List.reverse_cons, bytesToNatLE_append,
      List.length_reverse]
    ring

theorem bytesToNatBE_natToBytesBE (w v : Nat) :
    bytesToNatBE (natToBytesBE w v) = v % 256 ^ w := by
  rw [natToBytesBE_eq_reverse, bytesToNatBE_eq, List.reverse_reverse,
    bytesToNatLE_natToBytesLE]

theorem length_writeUInt (o : Bo) (w v : Nat) : (writeUInt o w v).length = w := by
  cases o <;> simp [writeUInt, length_natToBytesLE, length_natToBytesBE]

theorem readBytes_take_append (xs rest : List Nat) :
    readBytes xs.length (xs ++ rest) = some (xs, rest) := by
  simp [readBytes, List.take_left, List.drop_left]

theorem readUInt_writeUInt (o : Bo) (w v : Nat) (rest : List Nat)
    (h : v < 256 ^ w) :
    readUInt o w (writeUInt o w v ++ rest) = some (v, rest) := by
  have hrb := readBytes_take_append (writeUInt o w v) rest
  rw [length_writeUInt] at hrb
  cases o with
  | big =>
    unfold readUInt
    rw [hrb]
    simp [writeUInt, bytesToNatBE_natToBytesBE, Nat.mod_eq_of_lt h]
  | little =>
    unfold readUInt
    rw [hrb]
    simp [writeUInt, bytesToNatLE_natToBytesLE, Nat.mod_eq_of_lt h]

theorem readUInt_writeUInt_nil (o : Bo) (w v : Nat) (h : v < 256 ^ w) :
    readUInt o w (writeUInt o w v) = some (v, []) := by
  have := readUInt_writeUInt o w v [] h
  simpa using this

theorem toTwos_lt (w : Nat) (v : Int) : toTwos w v < 2 ^ (8 * w) := by
  have h2 : (0 : Int) < 2 ^ (8 * w) := by positivity
  have hlt := Int.emod_lt_of_pos v h2
  have h0 := Int.emod_nonneg v (ne_of_gt h2)
  have hcast : ((2 ^ (8 * w) : Nat) : Int) = 2 ^ (8 * w) := by push_cast; ring
  unfold toTwos
  omega

theorem fromTwos_toTwos (w : Nat) (hw : 1 ≤ w) (v : Int)
    (hlo : -(2 ^ (8 * w - 1)) ≤ v) (hhi : v < 2 ^ (8 * w - 1)) :
    fromTwos w (toTwos w v) = v := by
  have hsplit : 8 * w = 8 * w - 1 + 1 := by omega
  have hpowI : (2 : Int) ^ (8 * w) = 2 * 2 ^ (8 * w - 1) := by
    conv_lhs => rw [hsplit]
    rw [pow_succ]
    ring
  have hPpos : (0 : Int) < 2 ^ (8 * w - 1) := by positivity
  have hcastP : ((2 ^ (8 * w - 1) : Nat) : Int) = 2 ^ (8 * w - 1) := by
    push_cast
    ring
  have hcastW : ((2 ^ (8 * w) : Nat) : Int) = 2 ^ (8 * w) := by
    push_cast
    ring
  have hmod : v % (2 : Int) ^ (8 * w) = if 0 ≤ v then v else v + 2 ^ (8 * w) := by
    by_cases hv : 0 ≤ v
    · rw [if_pos hv]
      exact Int.emod_eq_of_lt hv (by omega)
    · rw [if_neg hv]
      have h1 : (v + (2 : Int) ^ (8 * w)) % 2 ^ (8 * w) = v % 2 ^ (8 * w) := by
        simp
      have h3 : (v + (2 : Int) ^ (8 * w)) % 2 ^ (8 * w) = v + 2 ^ (8 * w) :=
        Int.emod_eq_of_lt (by omega) (by omega)
      omega
  have htwos : toTwos w v = (if 0 ≤ v then v else v + 2 ^ (8 * w)).toNat := by
    unfold toTwos
    rw [hmod]
  rw [htwos]
  unfold fromTwos
  by_cases hv : 0 ≤ v
  · rw [if_pos hv]
    have hc : (v.toNat : Nat) < 2 ^ (8 * w - 1) := by omega
    rw [if_pos hc]
    omega
  · rw [if_neg hv]
    have hc : ¬(v + (2 : Int) ^ (8 * w)).toNat < 2 ^ (8 * w - 1) := by omega
    rw [if_neg hc]
    omega

theorem unpackMultipleInto_of_decodeSeq_some {α : Type}
    (u : Bo → List Nat → Option (α × List Nat)) (o : Bo) :
    ∀ (dst : List α) (src : List Nat) (vs : List α) (rest : List Nat),
      decodeSeq u o dst.length src = some (vs, rest) →
      unpackMultipleInto u o src dst = (vs, some rest) := by
  intro dst
  induction dst with
  | nil =>
    intro src vs rest h
    simp only [List.length_nil, decodeSeq, Option.some.injEq, Prod.mk.injEq] at h
    simp [unpackMultipleInto, h.1, h.2]
  | cons d ds ih =>
    intro src vs rest h
    simp only [List.length_cons, decodeSeq] at h
    cases hu : u o src with
    | none => simp only [hu] at h; exact Option.noConfusion h
    | some p =>
      obtain ⟨v, src1⟩ := p
      simp only [hu] at h
      cases hd : decodeSeq u o ds.length src1 with
      | none => simp only [hd] at h; exact Option.noConfusion h
      | some q =>
        obtain ⟨vs1, rest1⟩ := q
        simp only [hd, Option.some.injEq, Prod.mk.injEq] at h
        obtain ⟨hvs, hrest⟩ := h
        simp only [unpackMultipleInto, hu, ih src1 vs1 rest1 hd, ← hvs, hrest]

theorem unpackMultipleInto_of_decodeSeq_none {α : Type}
    (u : Bo → List Nat → Option (α × List Nat)) (o : Bo) :
    ∀ (dst : List α) (src : List Nat),
      decodeSeq u o dst.length src = none →
      ∃ k vs src1, k < dst.length ∧ decodeSeq u o k src = some (vs, src1) ∧
        u o src1 = none ∧
        unpackMultipleInto u o src dst = (vs ++ dst.drop k, none) := by
  intro dst
  induction dst with
  | nil =>
    intro src h
    simp [decodeSeq] at h
  | cons d ds ih =>
    intro src h
    simp only [List.length_cons, decodeSeq] at h
    cases hu : u o src with
    | none =>
      refine ⟨0, [], src, by simp, by simp [decodeSeq], hu, ?_⟩
      simp [unpackMultipleInto, hu]
    | some p =>
      obtain ⟨v, src1⟩ := p
      simp only [hu] at h
      have hd : decodeSeq u o ds.length src1 = none := by
        cases hd2 : decodeSeq u o ds.length src1 with
        | none => rfl
        | some q =>
          obtain ⟨vs1, rest1⟩ := q
          simp only [hd2] at h
          exact Option.noConfusion h
      obtain ⟨k, vs, src2, hk, hseq, hfail, hloop⟩ := ih src1 hd
      refine ⟨k + 1, v :: vs, src2, by simp only [List.length_cons]; omega, ?_,
        hfail, ?_⟩
      · simp [decodeSeq, hu, hseq]
      · simp [unpackMultipleInto, hu, hloop]

theorem unpackMultipleInto_snd_none_iff {α : Type}
    (u : Bo → List Nat → Option (α × List Nat)) (o : Bo) (dst : List α)
    (src : List Nat) :
    (unpackMultipleInto u o src dst).2 = none ↔
      decodeSeq u o dst.length src = none := by
  cases hd : decodeSeq u o dst.length src with
  | none =>
    obtain ⟨k, vs, src1, _, _, _, hloop⟩ :=
      unpackMultipleInto_of_decodeSeq_none u o dst src hd
    rw [hloop]
    simp
  | some p =>
    obtain ⟨vs, rest⟩ := p
    rw [unpackMultipleInto_of_decodeSeq_some u o dst src vs rest hd]
    simp

theorem decodeSeq_u8 (o : Bo) : ∀ (n : Nat) (src : List Nat),
    decodeSeq unpackFrom_u8 o n src =
      if n ≤ src.length then some (src.take n, src.drop n) else none := by
  intro n
  induction n with
  | zero => intro src; simp [decodeSeq]
  | succ n ih =>
    intro src
    cases src with
    | nil => simp [decodeSeq, unpackFrom_u8]
    | cons b bs =>
      simp only [decodeSeq, unpackFrom_u8, ih bs, List.length_cons]
      by_cases h : n ≤ bs.length
      · simp [h, Nat.succ_le_succ h, List.take_succ_cons, List.drop_succ_cons]
      · simp [h, fun hc => h (Nat.le_of_succ_le_succ hc)]

theorem packMultipleTo_u8_eq (o : Bo) :
    ∀ (buf : List Nat), (∀ b ∈ buf, b < 256) →
      packMultipleTo packTo_u8 o buf = buf := by
  intro buf
  induction buf with
  | nil => intro _; rfl
  | cons b bs ih =>
    intro h
    have hb : b < 256 := h b (by simp)
    simp only [packMultipleTo, packTo_u8, Nat.mod_eq_of_lt hb]
    rw [ih (fun x hx => h x (by simp [hx]))]
    rfl

theorem pow256_eq (w : Nat) : (256 : Nat) ^ w = 2 ^ (8 * w) := by
  rw [show (256 : Nat) = 2 ^ 8 from rfl, ← pow_mul]

theorem readUInt_toTwos (o : Bo) (w : Nat) (v : Int) (hw : 1 ≤ w)
    (hlo : -(2 ^ (8 * w - 1)) ≤ v) (hhi : v < 2 ^ (8 * w - 1))
    (rest : List Nat) :
    readUInt o w (writeUInt o w (toTwos w v) ++ rest) = some (toTwos w v, rest)
      ∧ fromTwos w (toTwos w v) = v := by
  constructor
  · apply readUInt_writeUInt
    rw [pow256_eq]
    exact toTwos_lt w v
  · exact fromTwos_toTwos w hw v hlo hhi

theorem unpackFrom_u8_roundtrip (o : Bo) (v : Nat) (h : v < 2 ^ 8)
    (rest : List Nat) : unpackFrom_u8 o (packTo_u8 o v ++ rest) = some (v, rest) := by
  have hv : v < 256 := by norm_num at h; exact h
  simp [unpackFrom_u8, packTo_u8, Nat.mod_eq_of_lt hv]

theorem unpackFrom_i8_roundtrip (o : Bo) (v : Int) (h1 : -(2 ^ 7) ≤ v)
    (h2 : v < 2 ^ 7) (rest : List Nat) :
    unpackFrom_i8 o (packTo_i8 o v ++ rest) = some (v, rest) := by
  have hf : fromTwos 1 (toTwos 1 v) = v := by
    apply fromTwos_toTwos 1 (by norm_num) v
    · norm_num
      norm_num at h1
      exact h1
    · norm_num
      norm_num at h2
      exact h2
  simp [unpackFrom_i8, packTo_i8, hf]

theorem unpackFrom_u16_roundtrip (o : Bo) (v : Nat) (h : v < 2 ^ 16)
    (rest : List Nat) : unpackFrom_u16 o (packTo_u16 o v ++ rest) = some (v, rest) := by
  apply readUInt_writeUInt
  rw [pow256_eq]
  norm_num
  norm_num at h
  exact h

theorem unpackFrom_u32_roundtrip (o : Bo) (v : Nat) (h : v < 2 ^ 32)
    (rest : List Nat) : unpackFrom_u32 o (packTo_u32 o v ++ rest) = some (v, rest) := by
  apply readUInt_writeUInt
  rw [pow256_eq]
  norm_num
  norm_num at h
  exact h

theorem unpackFrom_u64_roundtrip (o : Bo) (v : Nat) (h : v < 2 ^ 64)
    (rest : List Nat) : unpackFrom_u64 o (packTo_u64 o v ++ rest) = some (v, rest) := by
  apply readUInt_writeUInt
  rw [pow256_eq]
  norm_num
  norm_num at h
  exact h

theorem unpackFrom_u128_roundtrip (o : Bo) (v : Nat) (h : v < 2 ^ 128)
    (rest : List Nat) : unpackFrom_u128 o (packTo_u128 o v ++ rest) = some (v, rest) := by
  apply readUInt_writeUInt
  rw [pow256_eq]
  norm_num
  norm_num at h
  exact h

theorem unpackFrom_f32_roundtrip (o : Bo) (v : Nat) (h : v < 2 ^ 32)
    (rest : List Nat) : unpackFrom_f32 o (packTo_f32 o v ++ rest) = some (v, rest) := by
  apply readUInt_writeUInt
  rw [pow256_eq]
  norm_num
  norm_num at h
  exact h

theorem unpackFrom_f64_roundtrip (o : Bo) (v : Nat) (h : v < 2 ^ 64)
    (rest : List Nat) : unpackFrom_f64 o (packTo_f64 o v ++ rest) = some (v, rest) := by
  apply readUInt_writeUInt
  rw [pow256_eq]
  norm_num
  norm_num at h
  exact h

theorem unpackFrom_i16_roundtrip (o : Bo) (v : Int) (h1 : -(2 ^ 15) ≤ v)
    (h2 : v < 2 ^ 15) (rest : List Nat) :
    unpackFrom_i16 o (packTo_i16 o v ++ rest) = some (v, rest) := by
  obtain ⟨hr, hf⟩ := readUInt_toTwos o 2 v (by norm_num)
    (by norm_num; norm_num at h1; exact h1) (by norm_num; norm_num at h2; exact h2)
    rest
  unfold unpackFrom_i16 packTo_i16
  rw [hr]
  simp [hf]

theorem unpackFrom_i32_roundtrip (o : Bo) (v : Int) (h1 : -(2 ^ 31) ≤ v)
    (h2 : v < 2 ^ 31) (rest : List Nat) :
    unpackFrom_i32 o (packTo_i32 o v ++ rest) = some (v, rest) := by
  obtain ⟨hr, hf⟩ := readUInt_toTwos o 4 v (by norm_num)
    (by norm_num; norm_num at h1; exact h1) (by norm_num; norm_num at h2; exact h2)
    rest
  unfold unpackFrom_i32 packTo_i32
  rw [hr]
  simp [hf]

theorem unpackFrom_i64_roundtrip (o : Bo) (v : Int) (h1 : -(2 ^ 63) ≤ v)
    (h2 : v < 2 ^ 63) (rest : List Nat) :
    unpackFrom_i64 o (packTo_i64 o v ++ rest) = some (v, rest) := by
  obtain ⟨hr, hf⟩ := readUInt_toTwos o 8 v (by norm_num)
    (by norm_num; norm_num at h1; exact h1) (by norm_num; norm_num at h2; exact h2)
    rest
  unfold unpackFrom_i64 packTo_i64
  rw [hr]
  simp [hf]

theorem unpackFrom_i128_roundtrip (o : Bo) (v : Int) (h1 : -(2 ^ 127) ≤ v)
    (h2 : v < 2 ^ 127) (rest : List Nat) :
    unpackFrom_i128 o (packTo_i128 o v ++ rest) = some (v, rest) := by
  obtain ⟨hr, hf⟩ := readUInt_toTwos o 16 v (by norm_num)
    (by norm_num; norm_num at h1; exact h1) (by norm_num; norm_num at h2; exact h2)
    rest
  unfold unpackFrom_i128 packTo_i128
  rw [hr]
  simp [hf]

/-- Claim C1: for every supported scalar type (u8, i8, u16, i16, u32, i32, u64,
i64, u128, i128, f32, f64), every byte order, and every representable value
(floats compared by bit pattern), `unpack_from` applied to the exact bytes
produced by `pack_to` of the value under the same order yields the value
back, consuming the whole encoding. -/
theorem roundtrip_scalar (o : Bo) :
    (∀ v : Nat, v < 2 ^ 8 → unpackFrom_u8 o (packTo_u8 o v) = some (v, [])) ∧
    (∀ v : Int, -(2 ^ 7) ≤ v → v < 2 ^ 7 →
      unpackFrom_i8 o (packTo_i8 o v) = some (v, [])) ∧
    (∀ v : Nat, v < 2 ^ 16 → unpackFrom_u16 o (packTo_u16 o v) = some (v, [])) ∧
    (∀ v : Int, -(2 ^ 15) ≤ v → v < 2 ^ 15 →
      unpackFrom_i16 o (packTo_i16 o v) = some (v, [])) ∧
    (∀ v : Nat, v < 2 ^ 32 → unpackFrom_u32 o (packTo_u32 o v) = some (v, [])) ∧
    (∀ v : Int, -(2 ^ 31) ≤ v → v < 2 ^ 31 →
      unpackFrom_i32 o (packTo_i32 o v) = some (v, [])) ∧
    (∀ v : Nat, v < 2 ^ 64 → unpackFrom_u64 o (packTo_u64 o v) = some (v, [])) ∧
    (∀ v : Int, -(2 ^ 63) ≤ v → v < 2 ^ 63 →
      unpackFrom_i64 o (packTo_i64 o v) = some (v, [])) ∧
    (∀ v : Nat, v < 2 ^ 128 → unpackFrom_u128 o (packTo_u128 o v) = some (v, [])) ∧
    (∀ v : Int, -(2 ^ 127) ≤ v → v < 2 ^ 127 →
      unpackFrom_i128 o (packTo_i128 o v) = some (v, [])) ∧
    (∀ bits : Nat, bits < 2 ^ 32 →
      unpackFrom_f32 o (packTo_f32 o bits) = some (bits, [])) ∧
    (∀ bits : Nat, bits < 2 ^ 64 →
      unpackFrom_f64 o (packTo_f64 o bits) = some (bits, [])) := by
  refine ⟨fun v h => ?_, fun v h1 h2 => ?_, fun v h => ?_, fun v h1 h2 => ?_,
    fun v h => ?_, fun v h1 h2 => ?_, fun v h => ?_, fun v h1 h2 => ?_,
    fun v h => ?_, fun v h1 h2 => ?_, fun v h => ?_, fun v h => ?_⟩
  · have := unpackFrom_u8_roundtrip o v h []
    simpa using this
  · have := unpackFrom_i8_roundtrip o v h1 h2 []
    simpa using this
  · have := unpackFrom_u16_roundtrip o v h []
    simpa using this
  · have := unpackFrom_i16_roundtrip o v h1 h2 []
    simpa using this
  · have := unpackFrom_u32_roundtrip o v h []
    simpa using this
  · have := unpackFrom_i32_roundtrip o v h1 h2 []
    simpa using this
  · have := unpackFrom_u64_roundtrip o v h []
    simpa using this
  · have := unpackFrom_i64_roundtrip o v h1 h2 []
    simpa using this
  · have := unpackFrom_u128_roundtrip o v h []
    simpa using this
  · have := unpackFrom_i128_roundtrip o v h1 h2 []
    simpa using this
  · have := unpackFrom_f32_roundtrip o v h []
    simpa using this
  · have := unpackFrom_f64_roundtrip o v h []
    simpa using this

/-- Witness for C1 at concrete extreme inputs: the u16 maximum under big
endian and the i8 minimum under little endian round-trip. -/
theorem roundtrip_scalar_witness :
    unpackFrom_u16 Bo.big (packTo_u16 Bo.big 65535) = some (65535, []) ∧
    unpackFrom_i8 Bo.little (packTo_i8 Bo.little (-128)) = some (-128, []) :=
  ⟨(roundtrip_scalar Bo.big).2.2.1 65535 (by norm_num),
   (roundtrip_scalar Bo.little).2.1 (-128) (by norm_num) (by norm_num)⟩

/-- Claim C2: packing a tuple writes the concatenation of its fields' encodings in
declared left-to-right order with no separator, and unpacking the same tuple
type from those bytes reproduces the tuple; concretely, `(1u8, 2u8, 3u16,
4u16)` encodes big-endian to `01 02 00 03 00 04` and little-endian to
`01 02 03 00 04 00`, and decodes back. -/
theorem tuple_composition {α β : Type} (pa : Bo → α → List Nat)
    (pb : Bo → β → List Nat) (ua : Bo → List Nat → Option (α × List Nat))
    (ub : Bo → List Nat → Option (β × List Nat)) (Pa : α → Prop)
    (Pb : β → Prop) (o : Bo) (a : α) (b : β) :
    packTo_pair pa pb o (a, b) = pa o a ++ pb o b ∧
    ((∀ x, Pa x → ∀ rest, ua o (pa o x ++ rest) = some (x, rest)) →
      (∀ y, Pb y → ∀ rest, ub o (pb o y ++ rest) = some (y, rest)) →
      Pa a → Pb b →
      unpackFrom_pair ua ub o (packTo_pair pa pb o (a, b)) = some ((a, b), [])) ∧
    packTo_tuple4 packTo_u8 packTo_u8 packTo_u16 packTo_u16 Bo.big (1, 2, 3, 4) =
      [1, 2, 0, 3, 0, 4] ∧
    packTo_tuple4 packTo_u8 packTo_u8 packTo_u16 packTo_u16 Bo.little (1, 2, 3, 4) =
      [1, 2, 3, 0, 4, 0] ∧
    unpackFrom_tuple4 unpackFrom_u8 unpackFrom_u8 unpackFrom_u16 unpackFrom_u16
      Bo.big [1, 2, 0, 3, 0, 4] = some ((1, 2, 3, 4), []) ∧
    unpackFrom_tuple4 unpackFrom_u8 unpackFrom_u8 unpackFrom_u16 unpackFrom_u16
      Bo.little [1, 2, 3, 0, 4, 0] = some ((1, 2, 3, 4), []) := by
  refine ⟨rfl, ?_, by decide, by decide, by decide, by decide⟩
  intro ha hb hpa hpb
  have h1 := ha a hpa (pb o b)
  have h2 := hb b hpb []
  rw [List.append_nil] at h2
  simp [packTo_pair, unpackFrom_pair, h1, h2]

/-- Witness for C2: a concrete (u8, u16) pair round-trips through the pair
composition, with the component laws discharged by the scalar round-trip
lemmas. -/
theorem tuple_composition_witness :
    unpackFrom_pair unpackFrom_u8 unpackFrom_u16 Bo.big
      (packTo_pair packTo_u8 packTo_u16 Bo.big (2, 777)) = some ((2, 777), []) :=
  (tuple_composition packTo_u8 packTo_u16 unpackFrom_u8 unpackFrom_u16
      (fun v => v < 2 ^ 8) (fun v => v < 2 ^ 16) Bo.big 2 777).2.1
    (fun x hx rest => unpackFrom_u8_roundtrip Bo.big x hx rest)
    (fun y hy rest => unpackFrom_u16_roundtrip Bo.big y hy rest)
    (by norm_num) (by norm_num)

/-- Claim C3: packing any scalar value writes exactly the type's fixed byte width
(1 for u8/i8, 2 for u16/i16, 4 for u32/i32/f32, 8 for u64/i64/f64, 16 for
u128/i128), independent of the value's magnitude or sign. -/
theorem pack_width (o : Bo) :
    (∀ v : Nat, (packTo_u8 o v).length = 1) ∧
    (∀ v : Int, (packTo_i8 o v).length = 1) ∧
    (∀ v : Nat, (packTo_u16 o v).length = 2) ∧
    (∀ v : Int, (packTo_i16 o v).length = 2) ∧
    (∀ v : Nat, (packTo_u32 o v).length = 4) ∧
    (∀ v : Int, (packTo_i32 o v).length = 4) ∧
    (∀ v : Nat, (packTo_u64 o v).length = 8) ∧
    (∀ v : Int, (packTo_i64 o v).length = 8) ∧
    (∀ v : Nat, (packTo_u128 o v).length = 16) ∧
    (∀ v : Int, (packTo_i128 o v).length = 16) ∧
    (∀ bits : Nat, (packTo_f32 o bits).length = 4) ∧
    (∀ bits : Nat, (packTo_f64 o bits).length = 8) :=
  ⟨fun _ => rfl, fun _ => rfl,
   fun v => length_writeUInt o 2 v,
   fun v => length_writeUInt o 2 (toTwos 2 v),
   fun v => length_writeUInt o 4 v,
   fun v => length_writeUInt o 4 (toTwos 4 v),
   fun v => length_writeUInt o 8 v,
   fun v => length_writeUInt o 8 (toTwos 8 v),
   fun v => length_writeUInt o 16 v,
   fun v => length_writeUInt o 16 (toTwos 16 v),
   fun bits => length_writeUInt o 4 bits,
   fun bits => length_writeUInt o 8 bits⟩

/-- Claim C4: for every multi-byte scalar type and nonzero value, the big-endian
encoding is the exact reverse of the little-endian encoding; for the
single-byte types u8 and i8 the encodings under any two orders coincide. -/
theorem order_reversal :
    (∀ v : Nat, v ≠ 0 → packTo_u16 Bo.big v = (packTo_u16 Bo.little v).reverse) ∧
    (∀ v : Int, v ≠ 0 → packTo_i16 Bo.big v = (packTo_i16 Bo.little v).reverse) ∧
    (∀ v : Nat, v ≠ 0 → packTo_u32 Bo.big v = (packTo_u32 Bo.little v).reverse) ∧
    (∀ v : Int, v ≠ 0 → packTo_i32 Bo.big v = (packTo_i32 Bo.little v).reverse) ∧
    (∀ v : Nat, v ≠ 0 → packTo_u64 Bo.big v = (packTo_u64 Bo.little v).reverse) ∧
    (∀ v : Int, v ≠ 0 → packTo_i64 Bo.big v = (packTo_i64 Bo.little v).reverse) ∧
    (∀ v : Nat, v ≠ 0 → packTo_u128 Bo.big v = (packTo_u128 Bo.little v).reverse) ∧
    (∀ v : Int, v ≠ 0 → packTo_i128 Bo.big v = (packTo_i128 Bo.little v).reverse) ∧
    (∀ bits : Nat, bits ≠ 0 →
      packTo_f32 Bo.big bits = (packTo_f32 Bo.little bits).reverse) ∧
    (∀ bits : Nat, bits ≠ 0 →
      packTo_f64 Bo.big bits = (packTo_f64 Bo.little bits).reverse) ∧
    (∀ (v : Nat) (o o2 : Bo), packTo_u8 o v = packTo_u8 o2 v) ∧
    (∀ (v : Int) (o o2 : Bo), packTo_i8 o v = packTo_i8 o2 v) :=
  ⟨fun v _ => natToBytesBE_eq_reverse 2 v,
   fun v _ => natToBytesBE_eq_reverse 2 (toTwos 2 v),
   fun v _ => natToBytesBE_eq_reverse 4 v,
   fun v _ => natToBytesBE_eq_reverse 4 (toTwos 4 v),
   fun v _ => natToBytesBE_eq_reverse 8 v,
   fun v _ => natToBytesBE_eq_reverse 8 (toTwos 8 v),
   fun v _ => natToBytesBE_eq_reverse 16 v,
   fun v _ => natToBytesBE_eq_reverse 16 (toTwos 16 v),
   fun bits _ => natToBytesBE_eq_reverse 4 bits,
   fun bits _ => natToBytesBE_eq_reverse 8 bits,
   fun _ _ _ => rfl, fun _ _ _ => rfl⟩

/-- Witness for C4 at the nonzero input 3: the two u16 encodings are
reverses of each other. -/
theorem order_reversal_witness :
    (3 : Nat) ≠ 0 ∧ packTo_u16 Bo.big 3 = (packTo_u16 Bo.little 3).reverse :=
  ⟨by decide, order_reversal.1 3 (by decide)⟩

/-- Claim C5: the default `unpack_multiple_into` decodes one element per slot in
index order: when sequentially decoding `dst.length` elements succeeds it
fills every slot with the decoded values and succeeds, and when it fails it
stops at the first failing element `k` (the element decoder itself rejecting
the remaining source, e.g. on a short read), reports failure without
fabricating a value, and leaves the failing slot and every later slot at
exactly the value it held before the call. -/
theorem unpack_multiple_into_spec {α : Type}
    (u : Bo → List Nat → Option (α × List Nat)) (o : Bo) (src : List Nat)
    (dst : List α) :
    (∀ vs rest, decodeSeq u o dst.length src = some (vs, rest) →
      unpackMultipleInto u o src dst = (vs, some rest)) ∧
    (decodeSeq u o dst.length src = none →
      ∃ k vs src1, k < dst.length ∧ decodeSeq u o k src = some (vs, src1) ∧
        u o src1 = none ∧
        unpackMultipleInto u o src dst = (vs ++ dst.drop k, none)) :=
  ⟨fun vs rest h => unpackMultipleInto_of_decodeSeq_some u o dst src vs rest h,
   fun h => unpackMultipleInto_of_decodeSeq_none u o dst src h⟩

/-- Witness for C5: decoding u16 slots from the 3-byte source `[0, 3, 9]`
into a 2-slot destination pre-filled with 7 decodes the first element and
fails on the short remainder, leaving the second slot at 7. -/
theorem unpack_multiple_into_spec_witness :
    decodeSeq unpackFrom_u16 Bo.big (List.length ([7, 7] : List Nat)) [0, 3, 9] =
      none ∧
    (∃ k vs src1, k < ([7, 7] : List Nat).length ∧
      decodeSeq unpackFrom_u16 Bo.big k [0, 3, 9] = some (vs, src1) ∧
      unpackFrom_u16 Bo.big src1 = none ∧
      unpackMultipleInto unpackFrom_u16 Bo.big [0, 3, 9] [7, 7] =
        (vs ++ ([7, 7] : List Nat).drop k, none)) :=
  ⟨by decide,
   (unpack_multiple_into_spec unpackFrom_u16 Bo.big [0, 3, 9] [7, 7]).2
     (by decide)⟩

/-- Claim C6: the zero-field composition works in both directions: packing `()`
appends nothing to any sink state (and, the sink being the in-memory byte
buffer, always succeeds), and unpacking the unit type always succeeds,
consumes zero bytes, and produces the unit value. -/
theorem unit_composition (o : Bo) (s src : List Nat) :
    s ++ packTo_unit o = s ∧ packTo_unit o = [] ∧
    unpackFrom_unit o src = some ((), src) :=
  ⟨by simp [packTo_unit], rfl, rfl⟩

/-- Claim C7: packing through a reference is the same as packing the referent: the
`&T` encoder produces exactly the same bytes on every sink state, for every
underlying encoder, order, and value. -/
theorem ref_transparent {α : Type} (p : Bo → α → List Nat) (o : Bo) (v : α)
    (s : List Nat) :
    packTo_ref p o v = p o v ∧ s ++ packTo_ref p o v = s ++ p o v :=
  ⟨rfl, rfl⟩

/-- Claim C8: the u8 bulk specializations agree with the default per-element loop:
the block write produces the same bytes as packing each byte in turn, and
the exact block read has the same success-or-failure outcome as the
per-element loop and, on success, the same decoded slots and remaining
source. -/
theorem u8_bulk_equiv (o : Bo) (src : List Nat) (buf dst : List Nat) :
    ((∀ b ∈ buf, b < 256) →
      packMultipleTo_u8 o buf = packMultipleTo packTo_u8 o buf) ∧
    ((unpackMultipleInto_u8 o src dst).2 = none ↔
      (unpackMultipleInto unpackFrom_u8 o src dst).2 = none) ∧
    (∀ d rest, unpackMultipleInto_u8 o src dst = (d, some rest) →
      unpackMultipleInto unpackFrom_u8 o src dst = (d, some rest)) := by
  refine ⟨fun h => (packMultipleTo_u8_eq o buf h).symm, ?_, ?_⟩
  · rw [unpackMultipleInto_snd_none_iff, decodeSeq_u8]
    unfold unpackMultipleInto_u8 readBytes
    by_cases h : dst.length ≤ src.length <;> simp [h]
  · intro d rest h
    unfold unpackMultipleInto_u8 readBytes at h
    by_cases hl : dst.length ≤ src.length
    · simp only [if_pos hl] at h
      have hds : decodeSeq unpackFrom_u8 o dst.length src =
          some (src.take dst.length, src.drop dst.length) := by
        rw [decodeSeq_u8]
        simp [hl]
      have hloop := unpackMultipleInto_of_decodeSeq_some unpackFrom_u8 o dst src
        (src.take dst.length) (src.drop dst.length) hds
      simp only [Prod.mk.injEq, Option.some.injEq] at h
      rw [hloop, h.1, h.2]
    · simp only [if_neg hl] at h
      simp at h

/-- Witness for C8: a concrete two-byte buffer block-packs to the same bytes
as the loop, and a concrete block read matching the loop on a 3-byte source
with a 2-slot destination. -/
theorem u8_bulk_equiv_witness :
    packMultipleTo_u8 Bo.big [0, 255] = packMultipleTo packTo_u8 Bo.big [0, 255] ∧
    unpackMultipleInto unpackFrom_u8 Bo.big [5, 6, 7] [0, 0] = ([5, 6], some [7]) :=
  ⟨(u8_bulk_equiv Bo.big [] [0, 255] []).1 (by decide),
   (u8_bulk_equiv Bo.big [5, 6, 7] [] [0, 0]).2.2 [5, 6] [7] (by decide)⟩

/-- Claim C9: array decoding is atomic at the value level: `unpack_from` for
`[T; N]` coincides with all-or-nothing sequential decoding of `N` elements,
for every default value used to pre-fill the local buffer — the caller
either gets a fully decoded array in index order or an error, never a
partially populated mix of decoded and default slots. -/
theorem array_unpack_atomic {α : Type} (dflt : α)
    (u : Bo → List Nat → Option (α × List Nat)) (o : Bo) (n : Nat)
    (src : List Nat) :
    unpackFrom_array dflt u o n src = decodeSeq u o n src := by
  cases hd : decodeSeq u o n src with
  | some p =>
    obtain ⟨vs, rest⟩ := p
    have hlen : (List.replicate n dflt).length = n := List.length_replicate n dflt
    have hs := unpackMultipleInto_of_decodeSeq_some u o (List.replicate n dflt)
      src vs rest (by rw [hlen]; exact hd)
    simp [unpackFrom_array, hs]
  | none =>
    have hlen : (List.replicate n dflt).length = n := List.length_replicate n dflt
    obtain ⟨k, vs, src1, hk, hseq, hfail, hloop⟩ :=
      unpackMultipleInto_of_decodeSeq_none u o (List.replicate n dflt) src
        (by rw [hlen]; exact hd)
    simp [unpackFrom_array, hloop]

/-- Claim C10: packing a slice of any runtime length (including empty) writes the
concatenation of the elements' encodings in index order, with no length
prefix or separator: it is the flattened per-element encoding, a
homomorphism for append, the element encoding on singletons, and empty on
the empty slice (in this model the in-memory sink always succeeds, exactly
when every per-element write does). -/
theorem slice_pack_concat {α : Type} (p : Bo → α → List Nat) (o : Bo)
    (l l1 l2 : List α) (x : α) :
    packTo_slice p o l = (l.map (p o)).flatten ∧
    packTo_slice p o (l1 ++ l2) = packTo_slice p o l1 ++ packTo_slice p o l2 ∧
    packTo_slice p o [x] = p o x ∧
    packTo_slice p o ([] : List α) = [] := by
  refine ⟨?_, ?_, by simp [packTo_slice, packMultipleTo], rfl⟩
  · induction l with
    | nil => rfl
    | cons y ys ih =>
      simp only [packTo_slice, packMultipleTo, List.map_cons, List.flatten_cons]
        at ih ⊢
      rw [ih]
  · induction l1 with
    | nil => rfl
    | cons y ys ih =>
      simp only [packTo_slice, packMultipleTo, List.cons_append] at ih ⊢
      have ih2 : packMultipleTo p o (ys.append l2) =
          packMultipleTo p o ys ++ packMultipleTo p o l2 := ih
      rw [ih2, List.append_assoc]

end ByteorderPack
